import Mathlib

/-!
# Verification of the law target-collection engine

Shallow embedding of `law/target/collection.py`: the `TargetCollection`
threshold-existence engine and its `SiblingFileCollection` specialization.

Modelling conventions:
* A leaf target's `exists()` call is modelled as `Option Bool`: `some b` means
  the call returns `b`, `none` means the call raises. Functions that may hit a
  raising call return `Except Unit _`.
* Python floats (the threshold) are modelled as rationals `ℚ`; the threshold
  arithmetic of `_abs_threshold` is exact in the inputs exercised here.
* A collection's slots are modelled in iteration order of `_iter_flat`: for a
  list/tuple backing this is the list order, for a dict backing the insertion
  order of values; both are captured by a Lean `List`. Keyed iteration
  (`_iter_flat(keys=True)`) is modelled by a list of key/slot pairs whose
  first components are the collection's `keys()` in order.
-/

/-- Decidable equality for `Except`, used to evaluate concrete runs. -/
instance {ε α : Type} [DecidableEq ε] [DecidableEq α] : DecidableEq (Except ε α)
  | .error a, .error b =>
    if h : a = b then .isTrue (congrArg Except.error h)
    else .isFalse (fun hc => h (Except.error.inj hc))
  | .error _, .ok _ => .isFalse Except.noConfusion
  | .ok _, .error _ => .isFalse Except.noConfusion
  | .ok a, .ok b =>
    if h : a = b then .isTrue (congrArg Except.ok h)
    else .isFalse (fun hc => h (Except.ok.inj hc))

/-- Leaf target (a Storage Handle): the outcome of its `exists()` call
(`none` = the call raises), its content `hash` string, and whether its
`remove(silent=False)` call fails. -/
structure Leaf where
  ex : Option Bool
  hash : String
  removeFails : Bool
  deriving DecidableEq, Repr

/-- TargetCollection state relevant to existence queries: the per-slot
flattened leaf lists (`_flat_targets` iterated by `_iter_flat`) and the
configured `threshold`. `len(self)` is the number of slots. -/
structure TargetCollection where
  slots : List (List Leaf)
  threshold : ℚ
  deriving DecidableEq, Repr

namespace TargetCollection

/-- Embedding of `TargetCollection._abs_threshold` as a function of the
configured threshold and `len(self)`. -/
def abs_threshold (threshold : ℚ) (len : Nat) : ℚ :=
  if threshold < 0 then 0
  else if threshold ≤ 1 then (len : ℚ) * threshold
  else min (len : ℚ) (max threshold 0)

/-- Python's `all(t.exists() for t in targets)`: short-circuits at the first
leaf whose `exists()` returns `False`; a raising leaf propagates the error. -/
def slotAllExists : List Leaf → Except Unit Bool
  | [] => .ok true
  | t :: ts =>
    match t.ex with
    | none => .error ()
    | some false => .ok false
    | some true => slotAllExists ts

/-- Loop body of `TargetCollection.exists`: iterate slots with running count
`n` and index `i`; on a fully-existing slot increment `n` and return `True`
once `n >= threshold`; after each slot return `False` once
`n + (len - i - 1) < threshold`. -/
def existsScan (total : Nat) (θ : ℚ) : Nat → Nat → List (List Leaf) → Except Unit Bool
  | _, _, [] => .ok false
  | i, n, s :: rest =>
    match slotAllExists s with
    | .error e => .error e
    | .ok true =>
      let n' := n + 1
      if θ ≤ (n' : ℚ) then .ok true
      else if (n' : ℚ) + ((total - i - 1 : ℕ) : ℚ) < θ then .ok false
      else existsScan total θ (i + 1) n' rest
    | .ok false =>
      if (n : ℚ) + ((total - i - 1 : ℕ) : ℚ) < θ then .ok false
      else existsScan total θ (i + 1) n rest

/-- Embedding of `TargetCollection.exists`: trivial `True` when the absolute
threshold is 0 (before any slot is scanned), else the early-stopping scan. -/
def tcExists (c : TargetCollection) : Except Unit Bool :=
  let θ := abs_threshold c.threshold c.slots.length
  if θ = 0 then .ok true
  else existsScan c.slots.length θ 0 0 c.slots

/-- Loop of `TargetCollection.count` (full scan, no early stop), returning the
number of slots whose every leaf exists; a raising leaf propagates. -/
def countScan : List (List Leaf) → Except Unit Nat
  | [] => .ok 0
  | s :: rest =>
    match slotAllExists s with
    | .error e => .error e
    | .ok b =>
      match countScan rest with
      | .error e => .error e
      | .ok m => .ok (if b then m + 1 else m)

/-- Embedding of `TargetCollection.count(existing=True, keys=False)`. -/
def count (c : TargetCollection) : Except Unit Nat :=
  countScan c.slots

/-- Declarative count: the number of slots whose every leaf reports
existing, assuming no leaf raises. -/
def numExisting (slots : List (List Leaf)) : Nat :=
  slots.countP fun s => s.all fun t => decide (t.ex = some true)

/-- Entirely flat list of leaves (`_flat_target_list`): the concatenation of
the per-slot flattened lists, in slot order then intra-slot order. -/
def allLeaves (c : TargetCollection) : List Leaf :=
  c.slots.flatten

/-- Embedding of the `TargetCollection.hash` property: `create_hash` (from
`law.util`, an external collaborator of this module) applied to the class
name concatenated with the concatenation of every leaf's own `hash`, in
`_flat_target_list` order. The digest function is a parameter because
`create_hash` lives outside the translated source. -/
def tcHash (createHash : String → String) (className : String)
    (c : TargetCollection) : String :=
  createHash (className ++ String.join ((allLeaves c).map Leaf.hash))

/-- Modelled from the spec: a Storage Handle's `remove(silent)` call (the
handle classes live outside this module). Per the spec's error-handling
contract, `silent=True` swallows the handle's removal failure while
`silent=False` propagates it. -/
def leafRemove (t : Leaf) (silent : Bool) : Except Unit Unit :=
  if t.removeFails && !silent then .error () else .ok ()

/-- Embedding of `TargetCollection.remove`: invoke `remove(silent)` on every
leaf of `_flat_target_list` in order; a propagated leaf error aborts the
loop. The returned list records the leaves whose `remove` was invoked, the
boolean is whether the loop finished without a propagated error. -/
def removeRun (silent : Bool) : List Leaf → List Leaf × Bool
  | [] => ([], true)
  | t :: ts =>
    match leafRemove t silent with
    | .error _ => ([t], false)
    | .ok _ =>
      let p := removeRun silent ts
      (t :: p.1, p.2)

end TargetCollection

/-- Target wrapped by a SiblingFileCollection after its construction-time
type check: a `FileSystemTarget` leaf, carrying its `basename` and the
outcome of its own `exists()` call (which the sibling scan never consults),
or a nested SiblingFileCollection, carrying its directory state
(`dir.exists()` and `dir.listdir()`, the latter `none` when no listing can
be produced), its threshold and its per-slot flattened target lists. -/
inductive SibTarget where
  | fs (basename : String) (ex : Bool)
  | nested (dirEx : Bool) (listing : Option (List String)) (threshold : ℚ)
      (slots : List (List SibTarget))

namespace SiblingFileCollection

mutual

/-- Per-target check inside `SiblingFileCollection.exists`/`count`: a
`FileSystemTarget` is judged solely by `target.basename not in basenames`;
a nested SiblingFileCollection delegates to its own `exists` with the
caller's basenames (its stored listing is not consulted). -/
def sibPresent (basenames : List String) : SibTarget → Bool
  | .fs b _ => basenames.contains b
  | .nested dirEx _ θq slots => sfcExistsCore basenames dirEx θq slots
termination_by t => (sizeOf t, 0)

/-- Python's inner `for target in targets: ... break / else: n += 1`: the
slot counts exactly when no per-target check fails. -/
def sibSlotOk (basenames : List String) : List SibTarget → Bool
  | [] => true
  | t :: ts => sibPresent basenames t && sibSlotOk basenames ts
termination_by ts => (sizeOf ts, 0)

/-- Loop of `SiblingFileCollection.exists`: after each slot, return `True`
once `n >= threshold`, else `False` once `n + (len - i - 1) < threshold`. -/
def sfcScan (basenames : List String) (total : Nat) (θ : ℚ) (i n : Nat) :
    List (List SibTarget) → Bool
  | [] => false
  | s :: rest =>
    let n' := if sibSlotOk basenames s then n + 1 else n
    if θ ≤ (n' : ℚ) then true
    else if (n' : ℚ) + ((total - i - 1 : ℕ) : ℚ) < θ then false
    else sfcScan basenames total θ (i + 1) n' rest
termination_by slots => (sizeOf slots, 1)

/-- Embedding of `SiblingFileCollection.exists(basenames=...)` with a caller-supplied
listing: the collection's own `dir.exists()` is probed first, then the
trivial zero-threshold case, then the basename scan. -/
def sfcExistsCore (basenames : List String) (dirEx : Bool) (θq : ℚ)
    (slots : List (List SibTarget)) : Bool :=
  if !dirEx then false
  else if TargetCollection.abs_threshold θq slots.length = 0 then true
  else
    sfcScan basenames slots.length
      (TargetCollection.abs_threshold θq slots.length) 0 0 slots
termination_by (sizeOf slots, 2)

end

/-- Embedding of `SiblingFileCollection.exists()` with no caller-supplied basenames: the
directory check, then the trivial-threshold case, then the listing is
obtained from `dir.listdir()` (an error when no listing can be produced)
and the scan runs. -/
def sfcExists (dirEx : Bool) (listing : Option (List String)) (θq : ℚ)
    (slots : List (List SibTarget)) : Except Unit Bool :=
  if !dirEx then .ok false
  else if TargetCollection.abs_threshold θq slots.length = 0 then .ok true
  else
    match listing with
    | none => .error ()
    | some bs =>
      .ok (sfcScan bs slots.length
        (TargetCollection.abs_threshold θq slots.length) 0 0 slots)

/-- Loop of `SiblingFileCollection.count`: full scan over the keyed slot
view, accumulating the count and the keys of existing slots in iteration
order. -/
def sfcCountLoop {K : Type} (basenames : List String) :
    List (K × List SibTarget) → Nat × List K
  | [] => (0, [])
  | (k, s) :: rest =>
    let p := sfcCountLoop basenames rest
    if sibSlotOk basenames s then (p.1 + 1, k :: p.2) else p

/-- Embedding of `SiblingFileCollection.count(existing, keys=True, basenames=None)` over
the keyed slot view (`_iter_flat(keys=True)`): for both list- and
dict-backed structures, `len(self)` is the number of keyed slots and
`keys()` their first components in order. The missing-directory branch
returns before any listing; otherwise the listing comes from
`dir.listdir()` (an error when none can be produced). -/
def sfcCount {K : Type} [DecidableEq K] (dirEx : Bool)
    (listing : Option (List String)) (kslots : List (K × List SibTarget))
    (existing : Bool) : Except Unit (Nat × List K) :=
  if !dirEx then
    if existing then .ok (0, []) else .ok (kslots.length, kslots.map Prod.fst)
  else
    match listing with
    | none => .error ()
    | some bs =>
      if existing then .ok (sfcCountLoop bs kslots)
      else
        .ok (kslots.length - (sfcCountLoop bs kslots).1,
          (kslots.map Prod.fst).filter fun k => decide (k ∉ (sfcCountLoop bs kslots).2))

end SiblingFileCollection

/-- Directory-handle state of a FileSystemTarget's `parent`: whether the
directory exists and its listing (`none` when no listing can be produced). -/
structure FSDir where
  ex : Bool
  listing : Option (List String)
  deriving DecidableEq, Repr

/-- Raw target stored in the input structure: a `FileSystemTarget` (with its
basename, own-existence outcome and parent directory), a nested
SiblingFileCollection (with its directory state, threshold and per-slot
targets), or a target of any other kind. -/
inductive RawTarget where
  | fs (basename : String) (ex : Bool) (parent : FSDir)
  | sib (dirEx : Bool) (listing : Option (List String)) (threshold : ℚ)
      (slots : List (List SibTarget))
  | other

/-- Nested raw value inside the input structure: a raw target, a nested
sequence (list/tuple), or a nested mapping. -/
inductive Val where
  | leaf (t : RawTarget)
  | seq (vs : List Val)
  | map (kvs : List (String × Val))

/-- Input structure accepted by the constructor: an ordered sequence (list
or tuple; a generator is consumed into a list beforehand) or a key-ordered
mapping. -/
inductive Struct where
  | seq (vs : List Val)
  | map (kvs : List (String × Val))

mutual

/-- Modelled from the spec: `law.util.flatten` on one nested value — the
function lives in `law/util.py`, outside the given sources. Flattening
recursively unfolds nested sequences and mappings in order and treats every
target (nested collections included) as an atom. -/
def flattenVal : Val → List RawTarget
  | .leaf t => [t]
  | .seq vs => flattenVals vs
  | .map kvs => flattenKVs kvs
termination_by v => sizeOf v

/-- Modelled from the spec: flattening of a sequence concatenates the
flattenings of its elements in order. -/
def flattenVals : List Val → List RawTarget
  | [] => []
  | v :: vs => flattenVal v ++ flattenVals vs
termination_by vs => sizeOf vs

/-- Modelled from the spec: flattening of a mapping concatenates the
flattenings of its values in key order. -/
def flattenKVs : List (String × Val) → List RawTarget
  | [] => []
  | (_, v) :: kvs => flattenVal v ++ flattenKVs kvs
termination_by kvs => sizeOf kvs

end

/-- Per-slot flattened raw-target lists (the values of `_flat_targets`, in
iteration order). -/
def structSlots : Struct → List (List RawTarget)
  | .seq vs => vs.map flattenVal
  | .map kvs => kvs.map fun kv => flattenVal kv.2

/-- Entirely flat raw-target list (`_flat_target_list = flatten(targets)`). -/
def structFlat : Struct → List RawTarget
  | .seq vs => flattenVals vs
  | .map kvs => flattenKVs kvs

/-- Error raised during construction. -/
inductive InitError where
  | typeError
  | indexError
  deriving DecidableEq, Repr

/-- Embedding of `TargetCollection.__init__` over the supported structure
shapes: the structure is stored and the flattened views are computed; for
every list, tuple or dict input (empty ones included) construction
succeeds. -/
def mkTargetCollection (s : Struct) (threshold : ℚ) :
    Except InitError (List (List RawTarget) × ℚ) :=
  .ok (structSlots s, threshold)

/-- Result of a successful `SiblingFileCollection.__init__`: the directory
state derived from the first flat target, the threshold, and the wrapped
per-slot targets. -/
structure SFC where
  dirEx : Bool
  listing : Option (List String)
  threshold : ℚ
  slots : List (List SibTarget)

/-- Flat leaf list of a constructed SiblingFileCollection. -/
def SFC.leafList (c : SFC) : List SibTarget :=
  c.slots.flatten

/-- Check of `SiblingFileCollection.__init__`: a target passes when it is a
`FileSystemTarget` or a nested SiblingFileCollection. -/
def RawTarget.allowed : RawTarget → Bool
  | .other => false
  | _ => true

/-- Conversion of an allowed raw target into the sibling scan's view. -/
def toSibTarget : RawTarget → Option SibTarget
  | .fs b e _ => some (.fs b e)
  | .sib d l θq sl => some (.nested d l θq sl)
  | .other => none

/-- Directory of the first flat target: the `parent` of a
`FileSystemTarget`, the `dir` of a nested SiblingFileCollection. The
`.other` case is unreachable behind the construction-time type check. -/
def RawTarget.dirOf : RawTarget → FSDir
  | .fs _ _ p => p
  | .sib d l _ _ => ⟨d, l⟩
  | .other => ⟨false, none⟩

/-- Embedding of `SiblingFileCollection.__init__`: after the base
constructor, every flat target must pass the type check (else `TypeError`,
raised at the first offender); then the shared directory is read off the
first flat target — an `IndexError` when the flattened list is empty. -/
def mkSiblingFileCollection (s : Struct) (threshold : ℚ) : Except InitError SFC :=
  if (structFlat s).all RawTarget.allowed then
    match structFlat s with
    | [] => .error .indexError
    | t :: _ =>
      .ok ⟨(RawTarget.dirOf t).ex, (RawTarget.dirOf t).listing, threshold,
        (structSlots s).map fun sl => sl.filterMap toSibTarget⟩
  else .error .typeError

namespace TargetCollection

lemma numExisting_le_length (slots : List (List Leaf)) :
    numExisting slots ≤ slots.length :=
  List.countP_le_length _

lemma numExisting_cons (s : List Leaf) (rest : List (List Leaf)) :
    numExisting (s :: rest) =
      numExisting rest + (if s.all (fun t => decide (t.ex = some true)) then 1 else 0) := by
  simp [numExisting, List.countP_cons]

/-- With no raising leaf, `slotAllExists` returns the boolean conjunction of
the leaves' existence reports. -/
lemma slotAllExists_pure (s : List Leaf) (h : ∀ t ∈ s, (t.ex).isSome = true) :
    slotAllExists s = .ok (s.all fun t => decide (t.ex = some true)) := by
  induction s with
  | nil => rfl
  | cons t ts ih =>
    have ht := h t (by simp)
    match hx : t.ex with
    | none => simp [hx] at ht
    | some true =>
      simp [slotAllExists, hx, ih (fun x hx' => h x (by simp [hx']))]
    | some false =>
      simp [slotAllExists, hx]

lemma countScan_pure (slots : List (List Leaf))
    (h : ∀ s ∈ slots, ∀ t ∈ s, (t.ex).isSome = true) :
    countScan slots = .ok (numExisting slots) := by
  induction slots with
  | nil => rfl
  | cons s rest ih =>
    have hs := slotAllExists_pure s (fun t ht => h s (by simp) t ht)
    have hr := ih (fun x hx t ht => h x (by simp [hx]) t ht)
    simp only [countScan, hs, hr, numExisting_cons]
    split <;> simp

lemma abs_threshold_nonneg (threshold : ℚ) (len : Nat) :
    0 ≤ abs_threshold threshold len := by
  unfold abs_threshold
  split_ifs with h1 h2
  · exact le_refl 0
  · exact mul_nonneg (by positivity) (by linarith)
  · exact le_min (by positivity) (le_max_of_le_right (le_refl 0))

/-- Invariant of the early-stopping loop: if the running count is still below
the threshold and no remaining leaf raises, the loop computes exactly the
comparison of the final count against the threshold. -/
lemma existsScan_eq (θ : ℚ) (slots : List (List Leaf)) :
    ∀ i n total : Nat,
      total = i + slots.length → (n : ℚ) < θ →
      (∀ s ∈ slots, ∀ t ∈ s, (t.ex).isSome = true) →
      existsScan total θ i n slots =
        .ok (decide (θ ≤ (n : ℚ) + (numExisting slots : ℚ))) := by
  induction slots with
  | nil =>
    intro i n total _ hn _
    have hP : ¬ θ ≤ (n : ℚ) + ((numExisting ([] : List (List Leaf))) : ℚ) := by
      simp [numExisting]; linarith
    simp only [existsScan]
    rw [decide_eq_false hP]
  | cons s rest ih =>
    intro i n total htot hn hpure
    rw [List.length_cons] at htot
    have hs : slotAllExists s = .ok (s.all fun t => decide (t.ex = some true)) :=
      slotAllExists_pure s (fun t ht => hpure s (by simp) t ht)
    have hrem : total - i - 1 = rest.length := by omega
    have hle : (numExisting rest : ℚ) ≤ (rest.length : ℚ) := by
      exact_mod_cast numExisting_le_length rest
    have hnn : (0 : ℚ) ≤ (numExisting rest : ℚ) := Nat.cast_nonneg _
    have hpure' : ∀ x ∈ rest, ∀ t ∈ x, (t.ex).isSome = true :=
      fun x hx t ht => hpure x (by simp [hx]) t ht
    cases hball : (s.all fun t => decide (t.ex = some true)) with
    | true =>
      have hs' : slotAllExists s = .ok true := by rw [hs, hball]
      have hnum : numExisting (s :: rest) = numExisting rest + 1 := by
        rw [numExisting_cons, hball]; simp
      simp only [existsScan, hs', hrem, hnum]
      by_cases hstop : θ ≤ ((n + 1 : ℕ) : ℚ)
      · rw [if_pos hstop]
        have hP : θ ≤ (n : ℚ) + ((numExisting rest + 1 : ℕ) : ℚ) := by
          push_cast at hstop ⊢; linarith
        rw [decide_eq_true hP]
      · rw [if_neg hstop]
        by_cases hfail : ((n + 1 : ℕ) : ℚ) + (rest.length : ℚ) < θ
        · rw [if_pos hfail]
          have hP : ¬ θ ≤ (n : ℚ) + ((numExisting rest + 1 : ℕ) : ℚ) := by
            push_cast at hfail ⊢; push_cast at hle; linarith
          rw [decide_eq_false hP]
        · rw [if_neg hfail]
          have hlt : ((n + 1 : ℕ) : ℚ) < θ := not_le.mp hstop
          rw [ih (i + 1) (n + 1) total (by omega) hlt hpure']
          have hX : ((n + 1 : ℕ) : ℚ) + (numExisting rest : ℚ) =
              (n : ℚ) + ((numExisting rest + 1 : ℕ) : ℚ) := by push_cast; ring
          rw [hX]
    | false =>
      have hs' : slotAllExists s = .ok false := by rw [hs, hball]
      have hnum : numExisting (s :: rest) = numExisting rest := by
        rw [numExisting_cons, hball]; simp
      simp only [existsScan, hs', hrem, hnum]
      by_cases hfail : (n : ℚ) + (rest.length : ℚ) < θ
      · rw [if_pos hfail]
        have hP : ¬ θ ≤ (n : ℚ) + (numExisting rest : ℚ) := by linarith
        rw [decide_eq_false hP]
      · rw [if_neg hfail]
        exact ih (i + 1) n total (by omega) hn hpure'

lemma tcExists_trivial (c : TargetCollection)
    (h : abs_threshold c.threshold c.slots.length = 0) : tcExists c = .ok true := by
  simp [tcExists, h]

end TargetCollection

open TargetCollection in
/-- C1: for a TargetCollection whose leaves' existence reports are pure (no
leaf raises), `exists()` returns exactly the boolean of the full-scan
comparison `count(existing=True) >= absThreshold()`, so it is true iff the
number of fully-existing slots reaches the absolute threshold; and whenever
`absThreshold() == 0` the method returns true before scanning any slot (no
purity needed). -/
theorem tc_exists_iff_count_threshold :
    (∀ c : TargetCollection,
      abs_threshold c.threshold c.slots.length = 0 → tcExists c = .ok true) ∧
    (∀ c : TargetCollection,
      (∀ s ∈ c.slots, ∀ t ∈ s, (t.ex).isSome = true) →
      TargetCollection.count c = .ok (numExisting c.slots) ∧
      tcExists c =
        .ok (decide (abs_threshold c.threshold c.slots.length ≤ (numExisting c.slots : ℚ)))) := by
  constructor
  · exact fun c h => tcExists_trivial c h
  · intro c hpure
    refine ⟨countScan_pure c.slots hpure, ?_⟩
    by_cases h0 : abs_threshold c.threshold c.slots.length = 0
    · rw [tcExists_trivial c h0, h0]
      have hP : (0 : ℚ) ≤ (numExisting c.slots : ℚ) := Nat.cast_nonneg _
      rw [decide_eq_true hP]
    · have hpos : (0 : ℚ) < abs_threshold c.threshold c.slots.length :=
        lt_of_le_of_ne (abs_threshold_nonneg _ _) (Ne.symm h0)
      simp only [tcExists, if_neg h0]
      rw [existsScan_eq _ c.slots 0 0 c.slots.length (by simp) (by exact_mod_cast hpos) hpure]
      have hX : ((0 : ℕ) : ℚ) + (numExisting c.slots : ℚ) = (numExisting c.slots : ℚ) := by
        push_cast; ring
      rw [hX]

/-- Witness for C1: a concrete pure two-slot collection with threshold 1/2. -/
theorem tc_exists_iff_count_threshold_witness :
    TargetCollection.count ⟨[[⟨some true, "h1", false⟩], [⟨some false, "h2", false⟩]], 1/2⟩ =
      .ok (TargetCollection.numExisting
        [[⟨some true, "h1", false⟩], [⟨some false, "h2", false⟩]]) ∧
    TargetCollection.tcExists ⟨[[⟨some true, "h1", false⟩], [⟨some false, "h2", false⟩]], 1/2⟩ =
      .ok (decide (TargetCollection.abs_threshold (1/2)
          ([[⟨some true, "h1", false⟩], [⟨some false, "h2", false⟩]] :
            List (List Leaf)).length ≤
        (TargetCollection.numExisting
          [[⟨some true, "h1", false⟩], [⟨some false, "h2", false⟩]] : ℚ))) :=
  tc_exists_iff_count_threshold.2
    ⟨[[⟨some true, "h1", false⟩], [⟨some false, "h2", false⟩]], 1/2⟩ (by decide)

open TargetCollection in
/-- C6: early stopping of `TargetCollection.exists` keeps later slots
unqueried. With 5 slots and absolute threshold 2: if slots 0 and 1 exist the
scan returns true even though every later leaf would raise; if only slot 4
exists (its leaf would in fact raise when queried) the scan returns false
after slot 3 without touching slot 4, so no exception escapes. -/
theorem tc_exists_early_stop_concrete :
    tcExists ⟨[[⟨some true, "a", false⟩], [⟨some true, "b", false⟩],
               [⟨none, "c", false⟩], [⟨none, "d", false⟩], [⟨none, "e", false⟩]], 2⟩ =
      .ok true ∧
    tcExists ⟨[[⟨some false, "a", false⟩], [⟨some false, "b", false⟩],
               [⟨some false, "c", false⟩], [⟨some false, "d", false⟩],
               [⟨none, "e", false⟩]], 2⟩ =
      .ok false := by
  constructor <;>
    norm_num [tcExists, abs_threshold, existsScan, slotAllExists]

open TargetCollection in
/-- C4: `_abs_threshold` is the pure function of the configured threshold and
`len(self)`: a negative threshold yields 0; a threshold in `(0, 1]` yields
`len * threshold` exactly (fractional, not rounded); a threshold above 1
yields `min(len, max(threshold, 0))`. -/
theorem abs_threshold_cases :
    ∀ (threshold : ℚ) (len : ℕ),
      (threshold < 0 → abs_threshold threshold len = 0) ∧
      (0 < threshold → threshold ≤ 1 →
        abs_threshold threshold len = (len : ℚ) * threshold) ∧
      (1 < threshold →
        abs_threshold threshold len = min (len : ℚ) (max threshold 0)) := by
  intro th len
  refine ⟨fun h => ?_, fun h1 h2 => ?_, fun h => ?_⟩
  · simp [abs_threshold, h]
  · simp [abs_threshold, h2, not_lt.mpr (le_of_lt h1)]
  · have hn : ¬ th < 0 := by linarith
    have hn' : ¬ th ≤ 1 := not_le.mpr h
    simp [abs_threshold, hn, hn']

/-- Witness for C4: the three branches at thresholds -1, 1/2 and 3. -/
theorem abs_threshold_cases_witness :
    TargetCollection.abs_threshold (-1) 4 = 0 ∧
    TargetCollection.abs_threshold (1/2) 4 = ((4 : ℕ) : ℚ) * (1/2) ∧
    TargetCollection.abs_threshold 3 2 = min ((2 : ℕ) : ℚ) (max 3 0) :=
  ⟨(abs_threshold_cases (-1) 4).1 (by norm_num),
   (abs_threshold_cases (1/2) 4).2.1 (by norm_num) (by norm_num),
   (abs_threshold_cases 3 2).2.2 (by norm_num)⟩

open TargetCollection in
/-- C7: `hash` is the digest of the class's type tag concatenated with every
leaf's hash in `allLeaves` order; any two collections of the same class with
the same flattened leaf-hash sequence hash equally, whatever their thresholds
and slot groupings; and the value is stable across repeated calls while the
leaves are unchanged. -/
theorem tc_hash_leaf_hashes :
    (∀ (createHash : String → String) (className : String) (c : TargetCollection),
      tcHash createHash className c =
        createHash (className ++ String.join ((allLeaves c).map Leaf.hash))) ∧
    (∀ (createHash : String → String) (className : String) (c₁ c₂ : TargetCollection),
      (allLeaves c₁).map Leaf.hash = (allLeaves c₂).map Leaf.hash →
      tcHash createHash className c₁ = tcHash createHash className c₂) := by
  constructor
  · intro f cn c
    rfl
  · intro f cn c₁ c₂ h
    unfold tcHash
    rw [h]

/-- Witness for C7: the same two leaves grouped as two slots with threshold 1
and as one slot with threshold 1/2 yield the same hash. -/
theorem tc_hash_leaf_hashes_witness :
    TargetCollection.tcHash (fun s => s ++ s) "TargetCollection"
      ⟨[[⟨some true, "h1", false⟩], [⟨some false, "h2", false⟩]], 1⟩ =
    TargetCollection.tcHash (fun s => s ++ s) "TargetCollection"
      ⟨[[⟨some true, "h1", false⟩, ⟨some false, "h2", false⟩]], 1/2⟩ :=
  tc_hash_leaf_hashes.2 (fun s => s ++ s) "TargetCollection"
    ⟨[[⟨some true, "h1", false⟩], [⟨some false, "h2", false⟩]], 1⟩
    ⟨[[⟨some true, "h1", false⟩, ⟨some false, "h2", false⟩]], 1/2⟩ rfl

open TargetCollection in
/-- C8: `remove(silent)` walks `allLeaves` in order. With `silent=True` every
leaf is processed and no failure propagates; with `silent=False` the leaves
up to and including the first failing one are processed, later leaves are
left unprocessed, and the loop reports success exactly when no leaf fails. -/
theorem tc_remove_silent_halt :
    (∀ ls : List Leaf, removeRun true ls = (ls, true)) ∧
    (∀ ls : List Leaf,
      removeRun false ls =
        (ls.takeWhile (fun t => !t.removeFails) ++
          (ls.dropWhile (fun t => !t.removeFails)).take 1,
         ls.all (fun t => !t.removeFails))) := by
  constructor
  · intro ls
    induction ls with
    | nil => rfl
    | cons t ts ih => simp [removeRun, leafRemove, ih]
  · intro ls
    induction ls with
    | nil => rfl
    | cons t ts ih =>
      cases hf : t.removeFails with
      | true => simp [removeRun, leafRemove, hf, List.takeWhile_cons, List.dropWhile_cons]
      | false => simp [removeRun, leafRemove, hf, List.takeWhile_cons, List.dropWhile_cons, ih]

namespace SiblingFileCollection

/-- A slot containing a failing target never counts, wherever the target
sits in the slot. -/
lemma sibSlotOk_of_mem_false (bs : List String) (t : SibTarget)
    (ht : sibPresent bs t = false) :
    ∀ pre post : List SibTarget, sibSlotOk bs (pre ++ t :: post) = false := by
  intro pre post
  induction pre with
  | nil => simp [sibSlotOk, ht]
  | cons p pre' ih => simp [sibSlotOk, ih]

end SiblingFileCollection

open SiblingFileCollection in
/-- C2 fails on the code as stated: with a missing directory and a negative
threshold (so `absThreshold() == 0`), `exists()` still returns false, both
with and without caller-supplied basenames, because the directory check
precedes the trivial-threshold case. -/
theorem sfc_exists_dir_missing_cex :
    TargetCollection.abs_threshold (-1)
      ([[SibTarget.fs "a.txt" true]] : List (List SibTarget)).length = 0 ∧
    sfcExists false none (-1) [[SibTarget.fs "a.txt" true]] = .ok false ∧
    sfcExistsCore ["a.txt"] false (-1) [[SibTarget.fs "a.txt" true]] = false := by
  refine ⟨by norm_num [TargetCollection.abs_threshold], rfl, ?_⟩
  simp [sfcExistsCore]

open SiblingFileCollection in
/-- C2 (amended): for every SiblingFileCollection whose directory does not
exist, `exists()` returns false immediately — even when `absThreshold()` is
0, since the directory check comes before the trivial-true case. -/
theorem sfc_exists_dir_missing_false :
    ∀ (listing : Option (List String)) (θq : ℚ) (slots : List (List SibTarget)),
      sfcExists false listing θq slots = .ok false ∧
      ∀ bs : List String, sfcExistsCore bs false θq slots = false := by
  intro listing θq slots
  exact ⟨rfl, fun bs => by simp [sfcExistsCore]⟩

open SiblingFileCollection in
/-- C3: in the sibling scan a filesystem-backed leaf is judged purely by
basename membership in the listing, never by its own `exists()` (the result
is the same for every value of the leaves' own existence flags): with
listing `["a.txt","c.txt"]`, slots `a.txt`, `b.txt`, `c.txt` and threshold
1.0, `exists()` is false and `count(existing=True)` is 2 (keys 0 and 2). -/
theorem sfc_basename_membership :
    (∀ (bs : List String) (b : String) (e : Bool),
      sibPresent bs (.fs b e) = bs.contains b) ∧
    (∀ ea eb ec : Bool,
      sfcExists true (some ["a.txt", "c.txt"]) 1
        [[.fs "a.txt" ea], [.fs "b.txt" eb], [.fs "c.txt" ec]] = .ok false ∧
      sfcCount true (some ["a.txt", "c.txt"])
        [(0, [SibTarget.fs "a.txt" ea]), (1, [SibTarget.fs "b.txt" eb]),
         (2, [SibTarget.fs "c.txt" ec])] true = .ok (2, [0, 2])) := by
  constructor
  · intro bs b e
    simp [sibPresent]
  · intro ea eb ec
    constructor
    · norm_num [sfcExists, TargetCollection.abs_threshold, sfcScan, sibSlotOk, sibPresent]
      simp
      all_goals norm_num
    · norm_num [sfcCount, sfcCountLoop, sibSlotOk, sibPresent]
      simp

open SiblingFileCollection in
/-- C5: when the directory does not exist, `count(existing=True, keys=True)`
returns `(0, [])` and `count(existing=False, keys=True)` returns
`(len, keys())`, whatever the listing state — in particular when no listing
could be produced at all, showing no listing call is needed. -/
theorem sfc_count_dir_missing {K : Type} [DecidableEq K]
    (listing : Option (List String)) (kslots : List (K × List SibTarget)) :
    sfcCount false listing kslots true = .ok (0, []) ∧
    sfcCount false listing kslots false = .ok (kslots.length, kslots.map Prod.fst) :=
  ⟨rfl, rfl⟩

open SiblingFileCollection in
/-- C10: `SiblingFileCollection.exists` probes its own directory's existence
even when basenames are supplied, so a nested collection with a missing
directory fails its per-target check under any parent listing, and any slot
containing it counts as missing in the parent's scan. -/
theorem sfc_nested_dir_probe :
    ∀ (bs : List String) (listing : Option (List String)) (θq : ℚ)
      (slots : List (List SibTarget)),
      sfcExistsCore bs false θq slots = false ∧
      sibPresent bs (.nested false listing θq slots) = false ∧
      ∀ pre post : List SibTarget,
        sibSlotOk bs (pre ++ SibTarget.nested false listing θq slots :: post) = false := by
  intro bs listing θq slots
  have hcore : sfcExistsCore bs false θq slots = false := by simp [sfcExistsCore]
  have hpres : sibPresent bs (.nested false listing θq slots) = false := by
    simp [sibPresent, hcore]
  exact ⟨hcore, hpres, sibSlotOk_of_mem_false bs _ hpres⟩

/-- Flattening the whole structure concatenates the per-slot flattenings. -/
lemma structFlat_eq_flatten (s : Struct) :
    structFlat s = (structSlots s).flatten := by
  cases s with
  | seq vs =>
    simp only [structFlat, structSlots]
    induction vs with
    | nil => simp [flattenVals]
    | cons v vs ih => simp [flattenVals, ih]
  | map kvs =>
    simp only [structFlat, structSlots]
    induction kvs with
    | nil => simp [flattenKVs]
    | cons kv kvs ih =>
      obtain ⟨k, v⟩ := kv
      simp [flattenKVs, ih]

lemma flatten_map_filterMap (L : List (List RawTarget)) :
    (L.map fun sl => sl.filterMap toSibTarget).flatten = L.flatten.filterMap toSibTarget := by
  induction L with
  | nil => simp only [List.map_nil, List.flatten_nil, List.filterMap_nil]
  | cons sl L ih =>
    simp only [List.map_cons, List.flatten_cons, List.filterMap_append, ih]

lemma length_filterMap_of_allowed (l : List RawTarget)
    (h : l.all RawTarget.allowed = true) :
    (l.filterMap toSibTarget).length = l.length := by
  induction l with
  | nil => rfl
  | cons t ts ih =>
    simp only [List.all_cons, Bool.and_eq_true] at h
    cases t with
    | fs b e p => simp [toSibTarget, ih h.2]
    | sib d lst θq sl => simp [toSibTarget, ih h.2]
    | other => simp [RawTarget.allowed] at h

/-- C9: constructing a SiblingFileCollection from an empty structure (empty
list/tuple or empty dict) fails with an `IndexError` at the lookup of the
first flattened leaf used to derive the shared directory, while the base
`TargetCollection` constructor accepts the same empty structures; and every
successfully constructed SiblingFileCollection has at least one leaf. -/
theorem sfc_init_empty_fails :
    (∀ θq : ℚ,
      mkSiblingFileCollection (.seq []) θq = .error .indexError ∧
      mkSiblingFileCollection (.map []) θq = .error .indexError ∧
      mkTargetCollection (.seq []) θq = .ok ([], θq) ∧
      mkTargetCollection (.map []) θq = .ok ([], θq)) ∧
    (∀ (s : Struct) (θq : ℚ) (c : SFC),
      mkSiblingFileCollection s θq = .ok c → 1 ≤ c.leafList.length) := by
  constructor
  · intro θq
    refine ⟨?_, ?_, ?_, ?_⟩ <;>
      simp [mkSiblingFileCollection, mkTargetCollection, structFlat, structSlots,
        flattenVals, flattenKVs]
  · intro s θq c h
    unfold mkSiblingFileCollection at h
    cases hall : (structFlat s).all RawTarget.allowed with
    | false =>
      rw [hall] at h
      simp at h
    | true =>
      rw [hall] at h
      simp only [Bool.true_eq_false, reduceIte] at h
      cases hflat : structFlat s with
      | nil =>
        rw [hflat] at h
        simp at h
      | cons t rest =>
        rw [hflat] at h
        simp only [Except.ok.injEq] at h
        subst h
        rw [hflat] at hall
        simp only [SFC.leafList, flatten_map_filterMap, ← structFlat_eq_flatten, hflat,
          length_filterMap_of_allowed _ hall, List.length_cons]
        omega

/-- Witness for C9: a one-leaf sibling collection is constructed
successfully and has one leaf. -/
theorem sfc_init_empty_fails_witness :
    1 ≤ (SFC.mk true (some ["a.txt"]) 1 [[SibTarget.fs "a.txt" true]]).leafList.length :=
  sfc_init_empty_fails.2
    (.seq [.leaf (.fs "a.txt" true ⟨true, some ["a.txt"]⟩)]) 1
    (SFC.mk true (some ["a.txt"]) 1 [[SibTarget.fs "a.txt" true]])
    (by simp [mkSiblingFileCollection, structFlat, flattenVals, flattenVal, structSlots,
      toSibTarget, RawTarget.dirOf, RawTarget.allowed])

